import Mathlib

/-!
# Verification of the DUI Case Analyzer text comparator

A shallow embedding of `compare_texts` from `src/app.py` together with the
auxiliary Python string primitives it relies on (`str.strip`, `str.lower`,
`str.splitlines`, substring containment via `in`).  Strings are modelled as
`List Char`; the embedding covers the ASCII fragment of Python's string
semantics: `lower()` is the ASCII case mapping, `strip()` removes the ASCII
whitespace characters, and `splitlines()` splits at `\n`, `\r` and `\r\n`
boundaries.
-/

namespace DUI

/-- The whitespace characters removed by Python's `str.strip()` with no
argument, over the ASCII range: tab, newline, vertical tab, form feed,
carriage return, space (code points 9-13 and 32). -/
def isPySpace (c : Char) : Bool :=
  c.toNat == 32 || c.toNat == 9 || c.toNat == 10 || c.toNat == 11 ||
    c.toNat == 12 || c.toNat == 13

/-- Python `str.lower()` on a single character (ASCII case mapping:
`A`-`Z`, code points 65-90, map to `a`-`z` by adding 32). -/
def pyLowerChar (c : Char) : Char :=
  if 65 ≤ c.toNat ∧ c.toNat ≤ 90 then Char.ofNat (c.toNat + 32) else c

/-- Python `str.lower()`. -/
def pyLower (s : List Char) : List Char :=
  s.map pyLowerChar

/-- Python `str.strip()`: remove whitespace from both ends of the string. -/
def pyStrip (s : List Char) : List Char :=
  ((s.dropWhile isPySpace).reverse.dropWhile isPySpace).reverse

/-- Worker loop for `pySplitlines`: `acc` holds the current line reversed.
Every line boundary (`\r\n`, `\r` or `\n`) terminates a line (possibly
empty); a nonempty remainder after the last boundary forms a final line. -/
def splitlinesAux : List Char → List Char → List (List Char)
  | [], acc => if acc.isEmpty then [] else [acc.reverse]
  | '\r' :: '\n' :: rest, acc => acc.reverse :: splitlinesAux rest []
  | '\r' :: rest, acc => acc.reverse :: splitlinesAux rest []
  | '\n' :: rest, acc => acc.reverse :: splitlinesAux rest []
  | c :: rest, acc => splitlinesAux rest (c :: acc)

/-- Python `str.splitlines()` (restricted to the `\n` / `\r` / `\r\n`
boundaries): `""` yields `[]`, a trailing boundary produces no trailing
empty line. -/
def pySplitlines (s : List Char) : List (List Char) :=
  splitlinesAux s []

/-- `compare_texts(transcript, report_text)` from `src/app.py`, lines
149-159.  `report_text` is `Option`-valued to model Python's `None`; the
guard `if report_text else ""` sends both `None` and the empty string to
the empty report.  The report is normalized by `str(...).lower().strip()`;
each transcript line is normalized by `.strip().lower()`, and a line is
collected (as its stripped original-case form `line.strip()`) when its
normalization is nonempty and occurs as a contiguous substring of the
normalized report.  The accumulating `for` loop is rendered as an
order-preserving `filterMap` over the transcript's lines. -/
def compare_texts (transcript : List Char) (report_text : Option (List Char)) :
    List (List Char) :=
  let normalized_report_text : List Char :=
    match report_text with
    | some r => if r.isEmpty then [] else pyStrip (pyLower r)
    | none => []
  (pySplitlines transcript).filterMap fun line =>
    let normalized_line := pyLower (pyStrip line)
    if normalized_line ≠ [] ∧ normalized_line <:+: normalized_report_text then
      some (pyStrip line)
    else none

/-- The report normalization performed by `compare_texts` (the value of its
local `normalized_report_text`). -/
def normReport : Option (List Char) → List Char
  | some r => if r.isEmpty then [] else pyStrip (pyLower r)
  | none => []

/-- The non-blank lines of a transcript: each line trimmed, blank lines
dropped ("the non-blank (after trimming) lines of T" of the spec). -/
def nonBlankLines (t : List Char) : List (List Char) :=
  ((pySplitlines t).map pyStrip).filter fun l => decide (l ≠ [])

/-- Modelled from the spec: the reference comparator of spec section 4.1,
returning the pair `(matched, unmatched)`.  The report is only
lower-cased (not stripped); each transcript line is trimmed, blank lines
are excluded from both outputs, and a line is matched exactly when its
lower-cased form is a contiguous substring of the lower-cased report. -/
def spec_compare (transcript report : List Char) :
    List (List Char) × List (List Char) :=
  let normalized_report := pyLower report
  ((nonBlankLines transcript).filter fun l => decide (pyLower l <:+: normalized_report),
   (nonBlankLines transcript).filter fun l => !decide (pyLower l <:+: normalized_report))

/-! ## Helper lemmas about `dropWhile`, `pyStrip`, `pyLower` -/

lemma dropWhile_eq_cons_false {α : Type} {p : α → Bool} :
    ∀ {l : List α} {c : α} {t : List α}, l.dropWhile p = c :: t → p c = false := by
  intro l
  induction l with
  | nil => intro c t h; simp at h
  | cons a l ih =>
    intro c t h
    rw [List.dropWhile_cons] at h
    by_cases hp : p a
    · simp only [hp, if_true] at h
      exact ih h
    · simp only [hp, if_false] at h
      cases h
      simpa using hp

lemma head?_dropWhile_false {α : Type} {p : α → Bool} {l : List α} {c : α}
    (h : (l.dropWhile p).head? = some c) : p c = false := by
  cases hl : l.dropWhile p with
  | nil => rw [hl] at h; simp at h
  | cons a t =>
    rw [hl] at h
    simp only [List.head?_cons, Option.some.injEq] at h
    subst h
    exact dropWhile_eq_cons_false hl

lemma dropWhile_eq_self_of_head? {α : Type} {p : α → Bool} {l : List α}
    (h : ∀ c, l.head? = some c → p c = false) : l.dropWhile p = l := by
  cases l with
  | nil => rfl
  | cons a t =>
    rw [List.dropWhile_cons, if_neg]
    simp [h a rfl]

lemma infix_dropWhile {α : Type} {p : α → Bool} {n : List α} {c : α}
    (hc : n.head? = some c) (hpc : p c = false) :
    ∀ {s : List α}, n <:+: s → n <:+: s.dropWhile p := by
  intro s
  induction s with
  | nil =>
    intro h
    rw [List.infix_nil] at h
    subst h
    simp at hc
  | cons a t ih =>
    intro h
    rw [List.dropWhile_cons]
    by_cases hpa : p a
    · rw [if_pos hpa]
      rcases List.infix_cons_iff.mp h with hpre | hinf
      · rcases n with _ | ⟨b, n'⟩
        · simp at hc
        · obtain ⟨u, hu⟩ := hpre
          simp only [List.cons_append, List.cons.injEq] at hu
          simp only [List.head?_cons, Option.some.injEq] at hc
          rw [hc] at hu
          rw [hu.1] at hpc
          rw [hpa] at hpc
          cases hpc
      · exact ih hinf
    · rw [if_neg hpa]
      exact h

lemma stripEnd_prefix_self {α : Type} (p : α → Bool) (y : List α) :
    (y.reverse.dropWhile p).reverse <+: y := by
  have h : y.reverse.dropWhile p <:+ y.reverse := List.dropWhile_suffix p
  have h2 := List.reverse_prefix.mpr h
  rwa [List.reverse_reverse] at h2

lemma pyStrip_prefix_dropWhile (s : List Char) : pyStrip s <+: s.dropWhile isPySpace :=
  stripEnd_prefix_self isPySpace (s.dropWhile isPySpace)

lemma pyStrip_infix_self (s : List Char) : pyStrip s <:+: s :=
  (pyStrip_prefix_dropWhile s).isInfix.trans (List.dropWhile_suffix isPySpace).isInfix

lemma pyStrip_head?_false {s : List Char} {c : Char}
    (h : (pyStrip s).head? = some c) : isPySpace c = false := by
  cases hps : pyStrip s with
  | nil => rw [hps] at h; simp at h
  | cons a t =>
    rw [hps] at h
    simp only [List.head?_cons, Option.some.injEq] at h
    subst h
    obtain ⟨u, hu⟩ := pyStrip_prefix_dropWhile s
    rw [hps] at hu
    apply head?_dropWhile_false (l := s) (p := isPySpace)
    rw [hu.symm]
    rfl

lemma pyStrip_reverse_head?_false {s : List Char} {c : Char}
    (h : (pyStrip s).reverse.head? = some c) : isPySpace c = false := by
  unfold pyStrip at h
  rw [List.reverse_reverse] at h
  exact head?_dropWhile_false h

lemma pyStrip_idem (s : List Char) : pyStrip (pyStrip s) = pyStrip s := by
  have h1 : (pyStrip s).dropWhile isPySpace = pyStrip s :=
    dropWhile_eq_self_of_head? fun c hc => pyStrip_head?_false hc
  have h2 : ((s.dropWhile isPySpace).reverse.dropWhile isPySpace).dropWhile isPySpace
      = (s.dropWhile isPySpace).reverse.dropWhile isPySpace :=
    dropWhile_eq_self_of_head? fun c hc => head?_dropWhile_false hc
  show (((pyStrip s).dropWhile isPySpace).reverse.dropWhile isPySpace).reverse = pyStrip s
  rw [h1]
  show ((((s.dropWhile isPySpace).reverse.dropWhile isPySpace).reverse).reverse.dropWhile
    isPySpace).reverse = pyStrip s
  rw [List.reverse_reverse, h2]
  rfl

lemma isPySpace_ofNat_false {m : Nat} (h1 : 97 ≤ m) (h2 : m ≤ 122) :
    isPySpace (Char.ofNat m) = false := by
  interval_cases m <;> decide

lemma isPySpace_pyLowerChar (c : Char) : isPySpace (pyLowerChar c) = isPySpace c := by
  unfold pyLowerChar
  by_cases h : 65 ≤ c.toNat ∧ c.toNat ≤ 90
  · rw [if_pos h]
    have hl : isPySpace (Char.ofNat (c.toNat + 32)) = false :=
      isPySpace_ofNat_false (by omega) (by omega)
    have hr : isPySpace c = false := by
      simp only [isPySpace, Bool.or_eq_false_iff, beq_eq_false_iff_ne, ne_eq]
      omega
    rw [hl, hr]
  · rw [if_neg h]

lemma pyLower_eq_nil_iff {s : List Char} : pyLower s = [] ↔ s = [] := by
  simp [pyLower]

lemma pyLower_head?_false {m : List Char} {c : Char}
    (hm : ∀ d, m.head? = some d → isPySpace d = false)
    (h : (pyLower m).head? = some c) : isPySpace c = false := by
  rw [pyLower, List.head?_map] at h
  cases hd : m.head? with
  | none => rw [hd] at h; simp at h
  | some d =>
    rw [hd] at h
    simp only [Option.map_some', Option.some.injEq] at h
    subst h
    rw [isPySpace_pyLowerChar]
    exact hm d hd

lemma pyLower_reverse (m : List Char) : (pyLower m).reverse = pyLower m.reverse :=
  (List.map_reverse pyLowerChar m).symm

/-- Stripping whitespace off both ends of a string never changes whether a
nonempty needle with non-whitespace first and last characters occurs in it
as a contiguous substring. -/
lemma infix_pyStrip_iff {n s : List Char}
    (h1 : ∀ c, n.head? = some c → isPySpace c = false)
    (h2 : ∀ c, n.reverse.head? = some c → isPySpace c = false) :
    n <:+: pyStrip s ↔ n <:+: s := by
  constructor
  · intro h
    exact h.trans (pyStrip_infix_self s)
  · intro h
    rcases n with _ | ⟨a, n'⟩
    · exact List.nil_infix
    · have ha : isPySpace a = false := h1 a rfl
      have hha : (a :: n').head? = some a := rfl
      have step1 : (a :: n') <:+: s.dropWhile isPySpace :=
        infix_dropWhile hha ha h
      have hrev : (a :: n').reverse <:+: (s.dropWhile isPySpace).reverse :=
        List.reverse_infix.mpr step1
      cases hr : (a :: n').reverse with
      | nil => simp at hr
      | cons d t =>
        have hd : isPySpace d = false := h2 d (by rw [hr]; rfl)
        rw [hr] at hrev
        have hhd : (d :: t).head? = some d := rfl
        have step2 : (d :: t) <:+:
            ((s.dropWhile isPySpace).reverse).dropWhile isPySpace :=
          infix_dropWhile hhd hd hrev
        have step3 := List.reverse_infix.mpr step2
        rw [← hr, List.reverse_reverse] at step3
        exact step3

/-! ## Characterizations of `compare_texts` -/

lemma pyLower_nil : pyLower [] = [] := rfl

lemma normReport_some (r : List Char) : normReport (some r) = pyStrip (pyLower r) := by
  show (if r.isEmpty then [] else pyStrip (pyLower r)) = pyStrip (pyLower r)
  by_cases h : r.isEmpty
  · rw [if_pos h]
    rw [List.isEmpty_iff] at h
    subst h
    rfl
  · rw [if_neg h]

lemma filterMap_match_eq_filter (R : List Char) :
    ∀ ls : List (List Char),
      (ls.filterMap fun line =>
        if pyLower (pyStrip line) ≠ [] ∧ pyLower (pyStrip line) <:+: R then
          some (pyStrip line)
        else none)
      = (ls.map pyStrip).filter
          fun m => decide (m ≠ []) && decide (pyLower m <:+: R) := by
  intro ls
  induction ls with
  | nil => rfl
  | cons a ls ih =>
    simp only [List.filterMap_cons, List.map_cons, List.filter_cons]
    by_cases h1 : pyStrip a = []
    · have h1' : pyLower (pyStrip a) = [] := pyLower_eq_nil_iff.mpr h1
      simp [h1, h1', pyLower_nil, ih]
    · have h1' : pyLower (pyStrip a) ≠ [] := fun hh => h1 (pyLower_eq_nil_iff.mp hh)
      by_cases h2 : pyLower (pyStrip a) <:+: R
      · simp [h1, h1', h2, ih]
      · simp [h1, h1', h2, ih]

lemma compare_texts_eq_filter (t : List Char) (r : Option (List Char)) :
    compare_texts t r = ((pySplitlines t).map pyStrip).filter
      (fun m => decide (m ≠ []) && decide (pyLower m <:+: normReport r)) := by
  cases r with
  | none =>
    show (pySplitlines t).filterMap _ = _
    exact filterMap_match_eq_filter (normReport none) (pySplitlines t)
  | some R =>
    show (pySplitlines t).filterMap _ = _
    exact filterMap_match_eq_filter (normReport (some R)) (pySplitlines t)

lemma compare_texts_eq_nonBlank_filter (t : List Char) (r : Option (List Char)) :
    compare_texts t r
      = (nonBlankLines t).filter fun m => decide (pyLower m <:+: normReport r) := by
  rw [compare_texts_eq_filter]
  unfold nonBlankLines
  rw [List.filter_filter]
  apply List.filter_congr
  intro m _
  exact Bool.and_comm _ _

/-- The needle `compare_texts` searches for is a stripped nonempty line
lower-cased, so the report may equivalently be left unstripped. -/
lemma needle_infix_strip_iff (line r : List Char) :
    pyLower (pyStrip line) <:+: pyStrip (pyLower r)
      ↔ pyLower (pyStrip line) <:+: pyLower r := by
  apply infix_pyStrip_iff
  · intro c hc
    exact pyLower_head?_false (fun d hd => pyStrip_head?_false hd) hc
  · intro c hc
    rw [pyLower_reverse] at hc
    apply pyLower_head?_false (fun d hd => ?_) hc
    have hd' : ((pyStrip line).reverse).head? = some d := hd
    exact pyStrip_reverse_head?_false hd'

lemma mem_nonBlankLines {m : List Char} {t : List Char} (h : m ∈ nonBlankLines t) :
    m ≠ [] ∧ ∃ line, line ∈ pySplitlines t ∧ pyStrip line = m := by
  unfold nonBlankLines at h
  rw [List.mem_filter] at h
  obtain ⟨hmem, hne⟩ := h
  rw [List.mem_map] at hmem
  obtain ⟨line, hline, hm⟩ := hmem
  refine ⟨?_, line, hline, hm⟩
  simpa using hne

lemma compare_texts_none_eq_nil (t : List Char) : compare_texts t none = [] := by
  rw [compare_texts_eq_nonBlank_filter]
  rw [List.filter_eq_nil_iff]
  intro m hm
  obtain ⟨hne, -⟩ := mem_nonBlankLines hm
  simp only [normReport, decide_eq_true_eq, List.infix_nil]
  exact fun hh => hne (pyLower_eq_nil_iff.mp hh)

lemma compare_texts_some_nil_eq_nil (t : List Char) : compare_texts t (some []) = [] :=
  compare_texts_none_eq_nil t

example : pySplitlines "a\nb".toList = ["a".toList, "b".toList] := by decide
example : pySplitlines "".toList = [] := by decide
example : pySplitlines "a\n".toList = ["a".toList] := by decide
example : pySplitlines "\n".toList = [[]] := by decide
example : pyStrip "  hi  ".toList = "hi".toList := by decide
example : pyLower "Hello".toList = "hello".toList := by decide
example : compare_texts "Hello World".toList (some "hello world is here".toList) =
    ["Hello World".toList] := by decide
example : compare_texts "x\nx".toList (some "x".toList) =
    ["x".toList, "x".toList] := by decide
example : compare_texts "a\nb".toList (some "a".toList) = ["a".toList] := by decide
example : compare_texts "some text".toList (some []) = [] := by decide
example : compare_texts "t".toList none = [] := by decide

/-! ## Claim C1 -/

/-- Claim C1, counterexample: the comparator does not return an
`unmatched` sequence.  On transcript `"alpha\nbeta"` and report
`"alpha"`, its entire return value is the single list `["alpha"]`; the
non-blank transcript line `"beta"` appears in no returned sequence, so the
claimed pair of output sequences does not exist. -/
theorem c1_no_unmatched_sequence_returned :
    compare_texts "alpha\nbeta".toList (some "alpha".toList) = ["alpha".toList] ∧
    "beta".toList ∈ nonBlankLines "alpha\nbeta".toList ∧
    "beta".toList ∉ compare_texts "alpha\nbeta".toList (some "alpha".toList) := by
  decide

/-- Claim C1, amended: for every transcript string and every report, the
comparator returns one ordered sequence, the matched lines, listing
(trimmed) transcript lines in their original transcript order; no
unmatched sequence is returned.  Order preservation is expressed by the
output being a sublist of the trimmed transcript lines. -/
theorem c1_matched_in_transcript_order (t : List Char) (r : Option (List Char)) :
    List.Sublist (compare_texts t r) ((pySplitlines t).map pyStrip) := by
  rw [compare_texts_eq_filter]
  exact List.filter_sublist _

/-! ## Claim C2 -/

/-- Claim C2, counterexample: the multiset union of the comparator's
outputs does not cover the non-blank lines of the transcript.  On
transcript `"x\ny"` and report `"x"`, the non-blank lines are
`["x", "y"]` but the comparator's entire output is `["x"]`; the line
`"y"` is classified into neither output. -/
theorem c2_union_not_nonblank_lines :
    compare_texts "x\ny".toList (some "x".toList) = ["x".toList] ∧
    nonBlankLines "x\ny".toList = ["x".toList, "y".toList] ∧
    "y".toList ∉ compare_texts "x\ny".toList (some "x".toList) := by
  decide

/-- Claim C2, amended: for all transcripts and reports, the comparator's
single output is exactly the ordered sub-sequence of the non-blank
(after trimming) lines of the transcript whose lower-cased form occurs in
the normalized report; the complementary unmatched lines are not
returned. -/
theorem c2_matched_is_filter_of_nonblank (t : List Char) (r : Option (List Char)) :
    compare_texts t r
      = (nonBlankLines t).filter fun m => decide (pyLower m <:+: normReport r) :=
  compare_texts_eq_nonBlank_filter t r

/-! ## Claim C3 -/

/-- Claim C3, counterexample: a non-empty transcript line that is not
contained in the report is not classified as unmatched; it is absent from
the comparator's output altogether.  On transcript `"hello"` and report
`"unrelated report text"`, the output is `[]` and contains `"hello"`
nowhere. -/
theorem c3_noncontained_line_dropped :
    compare_texts "hello".toList (some "unrelated report text".toList) = [] ∧
    "hello".toList ∉ compare_texts "hello".toList (some "unrelated report text".toList) := by
  decide

/-- Claim C3, amended: a trimmed transcript line enters the comparator's
output exactly when it is non-empty after trimming and its lower-cased
form occurs as a contiguous substring of the lower-cased report text;
otherwise (non-empty and not contained) it is omitted from the output
rather than classified as unmatched. -/
theorem c3_matched_iff_substring (t r m : List Char) :
    m ∈ compare_texts t (some r)
      ↔ m ≠ [] ∧ (∃ line, line ∈ pySplitlines t ∧ pyStrip line = m) ∧
          pyLower m <:+: pyLower r := by
  rw [compare_texts_eq_nonBlank_filter]
  rw [List.mem_filter]
  constructor
  · intro ⟨hmem, hp⟩
    obtain ⟨hne, line, hline, hm⟩ := mem_nonBlankLines hmem
    refine ⟨hne, ⟨line, hline, hm⟩, ?_⟩
    rw [decide_eq_true_eq, normReport_some] at hp
    rw [← hm] at hp ⊢
    exact (needle_infix_strip_iff line r).mp hp
  · intro ⟨hne, ⟨line, hline, hm⟩, hinf⟩
    constructor
    · unfold nonBlankLines
      rw [List.mem_filter]
      refine ⟨List.mem_map.mpr ⟨line, hline, hm⟩, by simpa using hne⟩
    · rw [decide_eq_true_eq, normReport_some]
      rw [← hm] at hinf ⊢
      exact (needle_infix_strip_iff line r).mpr hinf

/-! ## Claim C4 -/

/-- Claim C4, counterexample: with an empty report the comparator does not
report the transcript line as unmatched.  On transcript `"some text"` and
report `""`, the comparator's entire output is `[]`; the claimed
`unmatched = ["some text"]` does not appear in any returned sequence. -/
theorem c4_empty_report_line_not_reported :
    compare_texts "some text".toList (some []) = [] ∧
    "some text".toList ∉ compare_texts "some text".toList (some []) := by
  decide

/-- Claim C4, amended: the comparator always returns a result on empty
inputs: an empty transcript yields the empty output for every report, and
an empty or absent report yields the empty output for every transcript
(the matched list is empty; no unmatched list is returned). -/
theorem c4_empty_inputs_return (t : List Char) (r : Option (List Char)) :
    compare_texts [] r = [] ∧ compare_texts t (some []) = [] ∧
      compare_texts t none = [] :=
  ⟨rfl, compare_texts_some_nil_eq_nil t, compare_texts_none_eq_nil t⟩

/-! ## Claim C5 -/

/-- Claim C5: matching is case-insensitive and the output element is the
trimmed original-case transcript line, not its lower-cased form:
`compare("Hello World", "hello world is here")` returns
`["Hello World"]`. -/
theorem c5_case_insensitive_output_original_case :
    compare_texts "Hello World".toList (some "hello world is here".toList)
      = ["Hello World".toList] := by
  decide

/-! ## Claim C6 -/

/-- Claim C6: repeated identical transcript lines are each classified
independently and kept with multiplicity and order:
`compare("x\nx", "x")` yields `["x", "x"]` of length 2. -/
theorem c6_duplicates_kept :
    compare_texts "x\nx".toList (some "x".toList) = ["x".toList, "x".toList] ∧
    (compare_texts "x\nx".toList (some "x".toList)).length = 2 := by
  decide

/-! ## Claim C7 -/

/-- Claim C7: no element of the comparator's output is empty or
whitespace-only: every output element is non-empty and still non-empty
after trimming. -/
theorem c7_no_blank_output (t : List Char) (r : Option (List Char))
    (m : List Char) (h : m ∈ compare_texts t r) : m ≠ [] ∧ pyStrip m ≠ [] := by
  rw [compare_texts_eq_filter] at h
  rw [List.mem_filter] at h
  obtain ⟨hmem, hp⟩ := h
  rw [Bool.and_eq_true, decide_eq_true_eq] at hp
  obtain ⟨line, -, hm⟩ := List.mem_map.mp hmem
  refine ⟨hp.1, ?_⟩
  rw [← hm, pyStrip_idem, hm]
  exact hp.1

/-- Claim C7, witness: on transcript `"a"` and report `"a"` the element
`"a"` of the output is non-empty and non-blank. -/
theorem c7_no_blank_output_witness :
    "a".toList ∈ compare_texts "a".toList (some "a".toList) ∧
      ("a".toList ≠ [] ∧ pyStrip "a".toList ≠ []) :=
  ⟨by decide, c7_no_blank_output "a".toList (some "a".toList) "a".toList (by decide)⟩

/-! ## Claim C8 -/

/-- Claim C8: the comparator is a deterministic pure function of its two
inputs: invocations with identical transcript and report arguments yield
identical outputs. -/
theorem c8_deterministic (t₁ t₂ : List Char) (r₁ r₂ : Option (List Char))
    (ht : t₁ = t₂) (hr : r₁ = r₂) : compare_texts t₁ r₁ = compare_texts t₂ r₂ := by
  subst ht
  subst hr
  rfl

/-- Claim C8, witness: two identical invocations on concrete inputs agree. -/
theorem c8_deterministic_witness :
    compare_texts "a\nb".toList (some "a".toList)
      = compare_texts "a\nb".toList (some "a".toList) :=
  c8_deterministic "a\nb".toList "a\nb".toList (some "a".toList) (some "a".toList) rfl rfl

/-! ## Claim C9 -/

/-- Claim C9: the implemented comparator, which strips the report's edges
before matching, classifies every transcript line exactly as the spec's
reference comparator that only lower-cases the report: the code's output
equals the reference `matched` sequence, and the reference `unmatched`
sequence coincides with the complement computed against the code's
stripped report, so stripping the report's edges never changes the
classification. -/
theorem c9_strip_invariant_refines_spec (t r : List Char) :
    compare_texts t (some r) = (spec_compare t r).1 ∧
    (spec_compare t r).2
      = (nonBlankLines t).filter
          (fun m => !decide (pyLower m <:+: normReport (some r))) := by
  constructor
  · rw [compare_texts_eq_nonBlank_filter]
    show _ = (nonBlankLines t).filter fun l => decide (pyLower l <:+: pyLower r)
    apply List.filter_congr
    intro m hm
    obtain ⟨-, line, -, hline⟩ := mem_nonBlankLines hm
    rw [normReport_some]
    apply decide_eq_decide.mpr
    rw [← hline]
    exact needle_infix_strip_iff line r
  · show (nonBlankLines t).filter (fun l => !decide (pyLower l <:+: pyLower r)) = _
    apply List.filter_congr
    intro m hm
    obtain ⟨-, line, -, hline⟩ := mem_nonBlankLines hm
    rw [normReport_some]
    have hiff : decide (pyLower m <:+: pyLower r)
        = decide (pyLower m <:+: pyStrip (pyLower r)) := by
      apply decide_eq_decide.mpr
      rw [← hline]
      exact (needle_infix_strip_iff line r).symm
    rw [hiff]

/-! ## Claim C10 -/

/-- Claim C10: invoking the comparator with an absent report (`None`) is
total and returns the empty matched list, and behaves identically to
invoking it with the empty-string report: the falsy guard replaces an
absent report with the empty string before matching. -/
theorem c10_absent_report_total (t : List Char) :
    compare_texts t none = [] ∧ compare_texts t none = compare_texts t (some []) :=
  ⟨compare_texts_none_eq_nil t, rfl⟩

end DUI
